import Mathlib

/-!
Verification of the Strassen matrix-multiplication component
(`src/Algorithms/Strassen's/src/matrix.cpp`).

A C++ `Matrix` holds `m_size` and a flat row-major buffer `m_data` of
`m_size * m_size` signed integers.  We embed the buffer as a total function
`Nat → Int` on linear offsets; the spec invariant `data.length == size*size`
means only offsets `< m_size * m_size` are observable, and our element-wise
equality `Matrix.EqM` compares exactly those.  Entries the C++ code
initialises to zero and never overwrites are `0` here as well.
-/

namespace StrassenCpp

structure Matrix where
  m_size : Nat
  m_data : Nat → Int

/-- The two exception kinds the source throws:
`std::invalid_argument` and `std::out_of_range`. -/
inductive MErr where
  | invalidArgument
  | outOfRange
deriving DecidableEq, Repr

/-- `Matrix::get_index`: returns the linear offset `r * m_size + c` when it is
inside the backing store (whose length is `m_size * m_size` by the data-model
invariant), and throws `out_of_range` otherwise. -/
def Matrix.get_index (M : Matrix) (r c : Nat) : Except MErr Nat :=
  if r * M.m_size + c < M.m_size * M.m_size then Except.ok (r * M.m_size + c)
  else Except.error MErr.outOfRange

/-- `Matrix::at` as the caller observes it: the element at the checked offset,
or the propagated `out_of_range` exception. -/
def Matrix.atE (M : Matrix) (r c : Nat) : Except MErr Int :=
  (M.get_index r c).map fun i => M.m_data i

/-- The raw read `m_data[r * m_size + c]`.  On every in-bounds access this is
what `Matrix::at` returns (lemma `atE_eq_at`); the recursive algorithms only
perform in-bounds accesses, so they are embedded with this total read. -/
def Matrix.at (M : Matrix) (r c : Nat) : Int :=
  M.m_data (r * M.m_size + c)

/-- `fmod(log2(s), 1) == 0`, the constructor's acceptance test, under exact
real semantics: `log2 s` has zero fractional part iff `s = 2^k` for some
natural `k` (the bound `k < s + 1` is no restriction, since `k < 2^k`).
For `s = 0`, `log2(0)` is `-inf`, so the `fmod` is NaN, which compares
`!= 0` and the constructor throws: `0` is rejected, which this predicate
also does (no power of two is `0`). -/
def pow2CheckOK (s : Nat) : Bool :=
  decide (∃ k, k < s + 1 ∧ s = 2 ^ k)

/-- `Matrix::Matrix(s, empty)`: throws `invalid_argument` unless the size
passes the power-of-two check; otherwise builds a size-`s` matrix with all
`s * s` elements zero.  (The `!empty` randomization path draws from a
`random_device`, which the spec puts out of scope; we embed the `empty`
construction, which is also the state every matrix is in before
randomization.) -/
def Matrix.construct (s : Nat) : Except MErr Matrix :=
  if pow2CheckOK s then Except.ok { m_size := s, m_data := fun _ => 0 }
  else Except.error MErr.invalidArgument

/-- `Matrix result(s)` on the internal paths where `s` is known valid:
a fresh all-zero matrix. -/
def Matrix.mk0 (s : Nat) : Matrix :=
  { m_size := s, m_data := fun _ => 0 }

/-- `Matrix::partition(row_start, col_start)`: builds a fresh matrix of size
`s = m_size / 2` whose element `(i, j)` is `at(i + row_start, j + col_start)`.
Offset `idx < s * s` decodes to `(idx / s, idx % s)`; the remaining offsets
keep the zero the fresh sub-matrix was constructed with. -/
def Matrix.partition (M : Matrix) (row_start col_start : Nat) : Matrix :=
  let s := M.m_size / 2
  { m_size := s
    m_data := fun idx =>
      if idx < s * s then M.at (idx / s + row_start) (idx % s + col_start)
      else 0 }

/-- `Matrix::combine(R_11, R_12, R_21, R_22)`: overwrites every in-bounds
entry `(i, j)` of the receiver with `determine_quad i j`, the quadrant
selection of the source's lambda; offsets beyond `m_size * m_size` do not
exist in the receiver's buffer and keep its previous function values. -/
def Matrix.combine (M R_11 R_12 R_21 R_22 : Matrix) : Matrix :=
  let k := M.m_size / 2
  let determine_quad : Nat → Nat → Int := fun i j =>
    if i < k ∧ j < k then R_11.at i j
    else if i < k ∧ k ≤ j then R_12.at i (j - k)
    else if k ≤ i ∧ j < k then R_21.at (i - k) j
    else R_22.at (i - k) (j - k)
  { m_size := M.m_size
    m_data := fun idx =>
      if idx < M.m_size * M.m_size then
        determine_quad (idx / M.m_size) (idx % M.m_size)
      else M.m_data idx }

/-- The success branch of `Matrix::operator+`: a fresh matrix of the
receiver's size whose buffer entry `i` is `m_data[i] + other.m_data[i]`
for every `i < m_data.size() = m_size * m_size`. -/
def Matrix.add (A B : Matrix) : Matrix :=
  { m_size := A.m_size
    m_data := fun idx =>
      if idx < A.m_size * A.m_size then A.m_data idx + B.m_data idx else 0 }

/-- The success branch of `Matrix::operator-`, pairwise difference. -/
def Matrix.sub (A B : Matrix) : Matrix :=
  { m_size := A.m_size
    m_data := fun idx =>
      if idx < A.m_size * A.m_size then A.m_data idx - B.m_data idx else 0 }

/-- `Matrix::operator+` with its size check: throws `invalid_argument` when
the operand sizes differ, otherwise returns the pairwise sum. -/
def Matrix.addE (A B : Matrix) : Except MErr Matrix :=
  if A.m_size ≠ B.m_size then Except.error MErr.invalidArgument
  else Except.ok (A.add B)

/-- `Matrix::operator-` with its size check. -/
def Matrix.subE (A B : Matrix) : Except MErr Matrix :=
  if A.m_size ≠ B.m_size then Except.error MErr.invalidArgument
  else Except.ok (A.sub B)

/-- `Matrix::multiply`, realised with a structural fuel so that the
definition computes.  The C++ recursion halves the size at every level and
bottoms out at `m_size == 1`; fuel `m_size` always suffices because a
power-of-two size `2^n` needs `n` levels and `n < 2^n`.  The fuel-0 branch
repeats the base case and is never reached on a power-of-two size. -/
def Matrix.multiplyGo : Nat → Matrix → Matrix → Matrix
  | 0, A, B =>
    { m_size := A.m_size
      m_data := fun idx => if idx = 0 then A.at 0 0 * B.at 0 0 else 0 }
  | fuel + 1, A, B =>
    if A.m_size = 1 then
      { m_size := A.m_size
        m_data := fun idx => if idx = 0 then A.at 0 0 * B.at 0 0 else 0 }
    else
      let k := A.m_size / 2
      let R_11 := (Matrix.multiplyGo fuel (A.partition 0 0) (B.partition 0 0)).add
        (Matrix.multiplyGo fuel (A.partition 0 k) (B.partition k 0))
      let R_12 := (Matrix.multiplyGo fuel (A.partition 0 0) (B.partition 0 k)).add
        (Matrix.multiplyGo fuel (A.partition 0 k) (B.partition k k))
      let R_21 := (Matrix.multiplyGo fuel (A.partition k 0) (B.partition 0 0)).add
        (Matrix.multiplyGo fuel (A.partition k k) (B.partition k 0))
      let R_22 := (Matrix.multiplyGo fuel (A.partition k 0) (B.partition 0 k)).add
        (Matrix.multiplyGo fuel (A.partition k k) (B.partition k k))
      (Matrix.mk0 A.m_size).combine R_11 R_12 R_21 R_22

/-- `Matrix::multiply`: base case writes `at(0,0) * other.at(0,0)` into a
fresh size-1 matrix; the recursive case partitions both operands into
quadrants, forms the four standard block sums with recursive `multiply`
calls and `operator+`, and combines them into a fresh receiver. -/
def Matrix.multiply (A B : Matrix) : Matrix :=
  Matrix.multiplyGo A.m_size A B

/-- `Matrix::strassen`: at size 1 it delegates to `multiply`; otherwise it
partitions both operands, computes the seven Strassen products — each by a
call to `multiply`, exactly as the source is written — assembles
`R_11 = ((P5 + P4) - P2) + P6`, `R_12 = P1 + P2`, `R_21 = P3 + P4`,
`R_22 = ((P5 + P1) - P3) - P7`, and combines.  Note the source contains no
recursive `strassen` call: the seven sub-products go through `multiply`. -/
def Matrix.strassen (A B : Matrix) : Matrix :=
  if A.m_size = 1 then A.multiply B
  else
    let k := A.m_size / 2
    let P1 := (A.partition 0 0).multiply ((B.partition 0 k).sub (B.partition k k))
    let P2 := ((A.partition 0 0).add (A.partition 0 k)).multiply (B.partition k k)
    let P3 := ((A.partition k 0).add (A.partition k k)).multiply (B.partition 0 0)
    let P4 := (A.partition k k).multiply ((B.partition k 0).sub (B.partition 0 0))
    let P5 := ((A.partition 0 0).add (A.partition k k)).multiply
      ((B.partition 0 0).add (B.partition k k))
    let P6 := ((A.partition 0 k).sub (A.partition k k)).multiply
      ((B.partition k 0).add (B.partition k k))
    let P7 := ((A.partition 0 0).sub (A.partition k 0)).multiply
      ((B.partition 0 0).add (B.partition 0 k))
    let R_11 := ((P5.add P4).sub P2).add P6
    let R_12 := P1.add P2
    let R_21 := P3.add P4
    let R_22 := ((P5.add P1).sub P3).sub P7
    (Matrix.mk0 A.m_size).combine R_11 R_12 R_21 R_22

/-- `Matrix::operator*`: throws `invalid_argument` when the operand sizes
differ, otherwise delegates to `strassen`. -/
def Matrix.mulE (A B : Matrix) : Except MErr Matrix :=
  if A.m_size ≠ B.m_size then Except.error MErr.invalidArgument
  else Except.ok (A.strassen B)

/-- Element-by-element equality on the observable entries: same size and the
same value at every row/column pair inside the matrix. -/
def Matrix.EqM (A B : Matrix) : Prop :=
  A.m_size = B.m_size ∧
    ∀ r, r < A.m_size → ∀ c, c < A.m_size → A.at r c = B.at r c

instance (A B : Matrix) : Decidable (A.EqM B) := by
  unfold Matrix.EqM; exact inferInstance

/-- Entry `(i, j)` of the mathematically-defined matrix product of `A` and
`B`: the triple-nested-loop sum of products the spec names as the
independent reference. -/
def matProdEntry (A B : Matrix) (i j : Nat) : Int :=
  ∑ t ∈ Finset.range A.m_size, A.at i t * B.at t j

/-- A matrix literal from a row-major list (test-data helper). -/
def mOfList (s : Nat) (l : List Int) : Matrix :=
  { m_size := s, m_data := fun idx => l.getD idx 0 }

/-- The seven products `P1 .. P7` of `strassen`'s recursive case, abstracted
over the operands and over `k = m_size / 2` so that one entry lemma per
product can be shared by the four quadrant cases of the correctness proof.
`SPi A B k` is literally the expression the source assigns to `Pi`. -/
def SP1 (A B : Matrix) (k : Nat) : Matrix :=
  (A.partition 0 0).multiply ((B.partition 0 k).sub (B.partition k k))

def SP2 (A B : Matrix) (k : Nat) : Matrix :=
  ((A.partition 0 0).add (A.partition 0 k)).multiply (B.partition k k)

def SP3 (A B : Matrix) (k : Nat) : Matrix :=
  ((A.partition k 0).add (A.partition k k)).multiply (B.partition 0 0)

def SP4 (A B : Matrix) (k : Nat) : Matrix :=
  (A.partition k k).multiply ((B.partition k 0).sub (B.partition 0 0))

def SP5 (A B : Matrix) (k : Nat) : Matrix :=
  ((A.partition 0 0).add (A.partition k k)).multiply
    ((B.partition 0 0).add (B.partition k k))

def SP6 (A B : Matrix) (k : Nat) : Matrix :=
  ((A.partition 0 k).sub (A.partition k k)).multiply
    ((B.partition k 0).add (B.partition k k))

def SP7 (A B : Matrix) (k : Nat) : Matrix :=
  ((A.partition 0 0).sub (A.partition k 0)).multiply
    ((B.partition 0 0).add (B.partition 0 k))

/-- `Matrix::multiply` instrumented with a scalar-multiplication counter:
the returned matrix is exactly `multiplyGo`'s (lemma `multiplyCGo_fst`), and
the second component counts the `at(0,0) * other.at(0,0)` base-case products
performed.  Used to exhibit the call structure of `strassen`. -/
def Matrix.multiplyCGo : Nat → Matrix → Matrix → Matrix × Nat
  | 0, A, B =>
    ({ m_size := A.m_size
       m_data := fun idx => if idx = 0 then A.at 0 0 * B.at 0 0 else 0 }, 1)
  | fuel + 1, A, B =>
    if A.m_size = 1 then
      ({ m_size := A.m_size
         m_data := fun idx => if idx = 0 then A.at 0 0 * B.at 0 0 else 0 }, 1)
    else
      let k := A.m_size / 2
      let q1 := Matrix.multiplyCGo fuel (A.partition 0 0) (B.partition 0 0)
      let q2 := Matrix.multiplyCGo fuel (A.partition 0 k) (B.partition k 0)
      let q3 := Matrix.multiplyCGo fuel (A.partition 0 0) (B.partition 0 k)
      let q4 := Matrix.multiplyCGo fuel (A.partition 0 k) (B.partition k k)
      let q5 := Matrix.multiplyCGo fuel (A.partition k 0) (B.partition 0 0)
      let q6 := Matrix.multiplyCGo fuel (A.partition k k) (B.partition k 0)
      let q7 := Matrix.multiplyCGo fuel (A.partition k 0) (B.partition 0 k)
      let q8 := Matrix.multiplyCGo fuel (A.partition k k) (B.partition k k)
      ((Matrix.mk0 A.m_size).combine (q1.1.add q2.1) (q3.1.add q4.1)
          (q5.1.add q6.1) (q7.1.add q8.1),
        q1.2 + q2.2 + q3.2 + q4.2 + q5.2 + q6.2 + q7.2 + q8.2)

def Matrix.multiplyC (A B : Matrix) : Matrix × Nat :=
  Matrix.multiplyCGo A.m_size A B

/-- `Matrix::strassen` instrumented with the same counter.  As in the source,
each of the seven products `P1 .. P7` is computed by a call to `multiply`
(here `multiplyC`) — not by a recursive `strassen` call. -/
def Matrix.strassenC (A B : Matrix) : Matrix × Nat :=
  if A.m_size = 1 then A.multiplyC B
  else
    let k := A.m_size / 2
    let p1 := (A.partition 0 0).multiplyC ((B.partition 0 k).sub (B.partition k k))
    let p2 := ((A.partition 0 0).add (A.partition 0 k)).multiplyC (B.partition k k)
    let p3 := ((A.partition k 0).add (A.partition k k)).multiplyC (B.partition 0 0)
    let p4 := (A.partition k k).multiplyC ((B.partition k 0).sub (B.partition 0 0))
    let p5 := ((A.partition 0 0).add (A.partition k k)).multiplyC
      ((B.partition 0 0).add (B.partition k k))
    let p6 := ((A.partition 0 k).sub (A.partition k k)).multiplyC
      ((B.partition k 0).add (B.partition k k))
    let p7 := ((A.partition 0 0).sub (A.partition k 0)).multiplyC
      ((B.partition 0 0).add (B.partition 0 k))
    ((Matrix.mk0 A.m_size).combine
        (((p5.1.add p4.1).sub p2.1).add p6.1)
        (p1.1.add p2.1)
        (p3.1.add p4.1)
        (((p5.1.add p1.1).sub p3.1).sub p7.1),
      p1.2 + p2.2 + p3.2 + p4.2 + p5.2 + p6.2 + p7.2)

/-- Modelled from the spec: §4.6 makes each of the seven products "a recursive
call to `strassen`" ("compute seven products, each a recursive call to
`strassen`"); the source instead calls `multiply` for them.  This definition
follows the spec's words — identical partition offsets, product formulas and
assembly order, but with the recursive call the spec prescribes — and carries
the same scalar-multiplication counter as `strassenC`.  Fuel as in
`multiplyGo`. -/
def strassenSpecCGo : Nat → Matrix → Matrix → Matrix × Nat
  | 0, A, B => A.multiplyC B
  | fuel + 1, A, B =>
    if A.m_size = 1 then A.multiplyC B
    else
      let k := A.m_size / 2
      let p1 := strassenSpecCGo fuel (A.partition 0 0)
        ((B.partition 0 k).sub (B.partition k k))
      let p2 := strassenSpecCGo fuel ((A.partition 0 0).add (A.partition 0 k))
        (B.partition k k)
      let p3 := strassenSpecCGo fuel ((A.partition k 0).add (A.partition k k))
        (B.partition 0 0)
      let p4 := strassenSpecCGo fuel (A.partition k k)
        ((B.partition k 0).sub (B.partition 0 0))
      let p5 := strassenSpecCGo fuel ((A.partition 0 0).add (A.partition k k))
        ((B.partition 0 0).add (B.partition k k))
      let p6 := strassenSpecCGo fuel ((A.partition 0 k).sub (A.partition k k))
        ((B.partition k 0).add (B.partition k k))
      let p7 := strassenSpecCGo fuel ((A.partition 0 0).sub (A.partition k 0))
        ((B.partition 0 0).add (B.partition 0 k))
      ((Matrix.mk0 A.m_size).combine
          (((p5.1.add p4.1).sub p2.1).add p6.1)
          (p1.1.add p2.1)
          (p3.1.add p4.1)
          (((p5.1.add p1.1).sub p3.1).sub p7.1),
        p1.2 + p2.2 + p3.2 + p4.2 + p5.2 + p6.2 + p7.2)

def strassenSpecC (A B : Matrix) : Matrix × Nat :=
  strassenSpecCGo A.m_size A B

/-! ### Concrete matrices for the spec's test scenarios -/

def tA1 : Matrix := mOfList 1 [7]

def tB1 : Matrix := mOfList 1 [6]

def tP1 : Matrix := mOfList 1 [42]

def tA2 : Matrix := mOfList 2 [1, 2, 3, 4]

def tB2 : Matrix := mOfList 2 [5, 6, 7, 8]

def tP2 : Matrix := mOfList 2 [19, 22, 43, 50]

def tA4 : Matrix :=
  mOfList 4 [1, 2, 3, 4, 5, 6, 7, 8, 9, 10, 11, 12, 13, 14, 15, 16]

def tB4 : Matrix :=
  mOfList 4 [3, -1, 4, 1, -5, 9, 2, -6, 5, 3, -5, 8, 9, -7, 9, 3]

/-! ### Index arithmetic -/

lemma pow2CheckOK_iff (s : Nat) : pow2CheckOK s = true ↔ ∃ k, s = 2 ^ k := by
  unfold pow2CheckOK
  rw [decide_eq_true_iff]
  constructor
  · rintro ⟨k, _, hk⟩; exact ⟨k, hk⟩
  · rintro ⟨k, hk⟩
    exact ⟨k, by rw [hk]; exact Nat.lt_succ_of_lt (Nat.lt_two_pow k), hk⟩


lemma index_lt {r c s : Nat} (hr : r < s) (hc : c < s) : r * s + c < s * s :=
  calc r * s + c < r * s + s := Nat.add_lt_add_left hc _
    _ = (r + 1) * s := (Nat.succ_mul r s).symm
    _ ≤ s * s := Nat.mul_le_mul_right s hr

lemma decode_div {i j s : Nat} (hj : j < s) : (i * s + j) / s = i := by
  have hs : 0 < s := Nat.lt_of_le_of_lt (Nat.zero_le j) hj
  rw [Nat.mul_comm i s, Nat.add_comm, Nat.add_mul_div_left j i hs,
    Nat.div_eq_of_lt hj, Nat.zero_add]

lemma decode_mod {i j s : Nat} (hj : j < s) : (i * s + j) % s = j :=
  Nat.mul_add_mod_of_lt hj

/-! ### Entry and size lemmas for each operation -/

@[simp] lemma partition_m_size (M : Matrix) (rs cs : Nat) :
    (M.partition rs cs).m_size = M.m_size / 2 := rfl

@[simp] lemma add_m_size (A B : Matrix) : (A.add B).m_size = A.m_size := rfl

@[simp] lemma sub_m_size (A B : Matrix) : (A.sub B).m_size = A.m_size := rfl

@[simp] lemma combine_m_size (M R_11 R_12 R_21 R_22 : Matrix) :
    (M.combine R_11 R_12 R_21 R_22).m_size = M.m_size := rfl

@[simp] lemma mk0_m_size (s : Nat) : (Matrix.mk0 s).m_size = s := rfl

lemma partition_at (M : Matrix) (rs cs i j : Nat)
    (hi : i < M.m_size / 2) (hj : j < M.m_size / 2) :
    (M.partition rs cs).at i j = M.at (i + rs) (j + cs) := by
  unfold Matrix.partition Matrix.at
  simp only [index_lt hi hj, if_true, decode_div hj, decode_mod hj]

lemma add_at (A B : Matrix) (hBA : B.m_size = A.m_size) (i j : Nat)
    (hi : i < A.m_size) (hj : j < A.m_size) :
    (A.add B).at i j = A.at i j + B.at i j := by
  unfold Matrix.add Matrix.at
  simp only [index_lt hi hj, if_true, hBA]

lemma sub_at (A B : Matrix) (hBA : B.m_size = A.m_size) (i j : Nat)
    (hi : i < A.m_size) (hj : j < A.m_size) :
    (A.sub B).at i j = A.at i j - B.at i j := by
  unfold Matrix.sub Matrix.at
  simp only [index_lt hi hj, if_true, hBA]

lemma combine_at (M R_11 R_12 R_21 R_22 : Matrix) (i j : Nat)
    (hi : i < M.m_size) (hj : j < M.m_size) :
    (M.combine R_11 R_12 R_21 R_22).at i j =
      (if i < M.m_size / 2 ∧ j < M.m_size / 2 then R_11.at i j
       else if i < M.m_size / 2 ∧ M.m_size / 2 ≤ j then
         R_12.at i (j - M.m_size / 2)
       else if M.m_size / 2 ≤ i ∧ j < M.m_size / 2 then
         R_21.at (i - M.m_size / 2) j
       else R_22.at (i - M.m_size / 2) (j - M.m_size / 2)) := by
  unfold Matrix.combine Matrix.at
  simp only [index_lt hi hj, if_true, decode_div hj, decode_mod hj]

lemma multiplyGo_m_size (fuel : Nat) (A B : Matrix) :
    (Matrix.multiplyGo fuel A B).m_size = A.m_size := by
  cases fuel with
  | zero => rfl
  | succ f =>
    unfold Matrix.multiplyGo
    by_cases h : A.m_size = 1 <;> simp [h, Matrix.combine, Matrix.mk0]

@[simp] lemma multiply_m_size (A B : Matrix) :
    (A.multiply B).m_size = A.m_size :=
  multiplyGo_m_size A.m_size A B

lemma strassen_m_size (A B : Matrix) :
    (A.strassen B).m_size = A.m_size := by
  unfold Matrix.strassen
  by_cases h : A.m_size = 1 <;> simp [h, Matrix.combine, Matrix.mk0]

/-! ### Correctness of the recursive baseline `multiply` -/

lemma multiplyGo_base (f : Nat) (A B : Matrix) (h : A.m_size = 1) :
    Matrix.multiplyGo (f + 1) A B =
      { m_size := A.m_size
        m_data := fun idx => if idx = 0 then A.at 0 0 * B.at 0 0 else 0 } := by
  simp only [Matrix.multiplyGo]
  rw [if_pos h]

lemma multiplyGo_succ (f : Nat) (A B : Matrix) (h : A.m_size ≠ 1) :
    Matrix.multiplyGo (f + 1) A B =
      (Matrix.mk0 A.m_size).combine
        ((Matrix.multiplyGo f (A.partition 0 0) (B.partition 0 0)).add
          (Matrix.multiplyGo f (A.partition 0 (A.m_size / 2))
            (B.partition (A.m_size / 2) 0)))
        ((Matrix.multiplyGo f (A.partition 0 0) (B.partition 0 (A.m_size / 2))).add
          (Matrix.multiplyGo f (A.partition 0 (A.m_size / 2))
            (B.partition (A.m_size / 2) (A.m_size / 2))))
        ((Matrix.multiplyGo f (A.partition (A.m_size / 2) 0) (B.partition 0 0)).add
          (Matrix.multiplyGo f (A.partition (A.m_size / 2) (A.m_size / 2))
            (B.partition (A.m_size / 2) 0)))
        ((Matrix.multiplyGo f (A.partition (A.m_size / 2) 0)
            (B.partition 0 (A.m_size / 2))).add
          (Matrix.multiplyGo f (A.partition (A.m_size / 2) (A.m_size / 2))
            (B.partition (A.m_size / 2) (A.m_size / 2)))) := by
  simp only [Matrix.multiplyGo]
  rw [if_neg h]

lemma multiplyGo_correct :
    ∀ (n fuel : Nat) (A B : Matrix), n < fuel →
      A.m_size = 2 ^ n → B.m_size = 2 ^ n →
      ∀ i j, i < 2 ^ n → j < 2 ^ n →
        (Matrix.multiplyGo fuel A B).at i j =
          ∑ t ∈ Finset.range (2 ^ n), A.at i t * B.at t j := by
  intro n
  induction n with
  | zero =>
    intro fuel A B hfuel hA hB i j hi hj
    match fuel, hfuel with
    | f + 1, _ =>
      interval_cases i
      interval_cases j
      rw [multiplyGo_base f A B hA]
      simp [Matrix.at]
  | succ n ih =>
    intro fuel A B hfuel hA hB i j hi hj
    match fuel, hfuel with
    | f + 1, hfuel =>
    have hnf : n < f := by omega
    have hA1 : A.m_size ≠ 1 := by
      rw [hA]; exact Nat.ne_of_gt (Nat.one_lt_two_pow (Nat.succ_ne_zero n))
    have hsplit : (2 : Nat) ^ (n + 1) = 2 ^ n + 2 ^ n := by
      rw [pow_succ, Nat.mul_two]
    have hk : A.m_size / 2 = 2 ^ n := by rw [hA, hsplit]; omega
    have hkB : B.m_size / 2 = 2 ^ n := by rw [hB, hsplit]; omega
    rw [multiplyGo_succ f A B hA1,
      combine_at (Matrix.mk0 A.m_size) _ _ _ _ i j
        (show i < A.m_size by omega) (show j < A.m_size by omega)]
    simp only [mk0_m_size, hk]
    rw [hsplit, Finset.sum_range_add]
    have hmgs : ∀ (X Y : Matrix), (Matrix.multiplyGo f X Y).m_size = X.m_size :=
      fun X Y => multiplyGo_m_size f X Y
    by_cases hci : i < 2 ^ n <;> by_cases hcj : j < 2 ^ n
    · rw [if_pos ⟨hci, hcj⟩]
      rw [add_at _ _ (by rw [hmgs, hmgs, partition_m_size, partition_m_size])
        i j (by rw [hmgs, partition_m_size]; omega)
        (by rw [hmgs, partition_m_size]; omega)]
      rw [ih f _ _ hnf (by rw [partition_m_size]; omega)
          (by rw [partition_m_size]; omega) i j hci hcj,
        ih f _ _ hnf (by rw [partition_m_size]; omega)
          (by rw [partition_m_size]; omega) i j hci hcj]
      congr 1
      · refine Finset.sum_congr rfl fun t ht => ?_
        have ht' : t < 2 ^ n := Finset.mem_range.mp ht
        rw [partition_at A 0 0 i t (by omega) (by omega),
          partition_at B 0 0 t j (by omega) (by omega)]
        simp
      · refine Finset.sum_congr rfl fun t ht => ?_
        have ht' : t < 2 ^ n := Finset.mem_range.mp ht
        rw [partition_at A 0 (2 ^ n) i t (by omega) (by omega),
          partition_at B (2 ^ n) 0 t j (by omega) (by omega)]
        simp [Nat.add_comm]
    · rw [if_neg (by omega), if_pos (by omega)]
      rw [add_at _ _ (by rw [hmgs, hmgs, partition_m_size, partition_m_size])
        i (j - 2 ^ n) (by rw [hmgs, partition_m_size]; omega)
        (by rw [hmgs, partition_m_size]; omega)]
      rw [ih f _ _ hnf (by rw [partition_m_size]; omega)
          (by rw [partition_m_size]; omega) i (j - 2 ^ n) hci (by omega),
        ih f _ _ hnf (by rw [partition_m_size]; omega)
          (by rw [partition_m_size]; omega) i (j - 2 ^ n) hci (by omega)]
      congr 1
      · refine Finset.sum_congr rfl fun t ht => ?_
        have ht' : t < 2 ^ n := Finset.mem_range.mp ht
        rw [partition_at A 0 0 i t (by omega) (by omega),
          partition_at B 0 (2 ^ n) t (j - 2 ^ n) (by omega) (by omega),
          show j - 2 ^ n + 2 ^ n = j by omega]
        simp
      · refine Finset.sum_congr rfl fun t ht => ?_
        have ht' : t < 2 ^ n := Finset.mem_range.mp ht
        rw [partition_at A 0 (2 ^ n) i t (by omega) (by omega),
          partition_at B (2 ^ n) (2 ^ n) t (j - 2 ^ n)
            (by omega) (by omega),
          show j - 2 ^ n + 2 ^ n = j by omega]
        simp [Nat.add_comm]
    · rw [if_neg (by omega), if_neg (by omega), if_pos (by omega)]
      rw [add_at _ _ (by rw [hmgs, hmgs, partition_m_size, partition_m_size])
        (i - 2 ^ n) j (by rw [hmgs, partition_m_size]; omega)
        (by rw [hmgs, partition_m_size]; omega)]
      rw [ih f _ _ hnf (by rw [partition_m_size]; omega)
          (by rw [partition_m_size]; omega) (i - 2 ^ n) j (by omega) hcj,
        ih f _ _ hnf (by rw [partition_m_size]; omega)
          (by rw [partition_m_size]; omega) (i - 2 ^ n) j (by omega) hcj]
      congr 1
      · refine Finset.sum_congr rfl fun t ht => ?_
        have ht' : t < 2 ^ n := Finset.mem_range.mp ht
        rw [partition_at A (2 ^ n) 0 (i - 2 ^ n) t (by omega) (by omega),
          partition_at B 0 0 t j (by omega) (by omega),
          show i - 2 ^ n + 2 ^ n = i by omega]
        simp
      · refine Finset.sum_congr rfl fun t ht => ?_
        have ht' : t < 2 ^ n := Finset.mem_range.mp ht
        rw [partition_at A (2 ^ n) (2 ^ n) (i - 2 ^ n) t
            (by omega) (by omega),
          partition_at B (2 ^ n) 0 t j (by omega) (by omega),
          show i - 2 ^ n + 2 ^ n = i by omega]
        simp [Nat.add_comm]
    · rw [if_neg (by omega), if_neg (by omega), if_neg (by omega)]
      rw [add_at _ _ (by rw [hmgs, hmgs, partition_m_size, partition_m_size])
        (i - 2 ^ n) (j - 2 ^ n) (by rw [hmgs, partition_m_size]; omega)
        (by rw [hmgs, partition_m_size]; omega)]
      rw [ih f _ _ hnf (by rw [partition_m_size]; omega)
          (by rw [partition_m_size]; omega) (i - 2 ^ n) (j - 2 ^ n)
          (by omega) (by omega),
        ih f _ _ hnf (by rw [partition_m_size]; omega)
          (by rw [partition_m_size]; omega) (i - 2 ^ n) (j - 2 ^ n)
          (by omega) (by omega)]
      congr 1
      · refine Finset.sum_congr rfl fun t ht => ?_
        have ht' : t < 2 ^ n := Finset.mem_range.mp ht
        rw [partition_at A (2 ^ n) 0 (i - 2 ^ n) t (by omega) (by omega),
          partition_at B 0 (2 ^ n) t (j - 2 ^ n) (by omega) (by omega),
          show i - 2 ^ n + 2 ^ n = i by omega,
          show j - 2 ^ n + 2 ^ n = j by omega]
        simp
      · refine Finset.sum_congr rfl fun t ht => ?_
        have ht' : t < 2 ^ n := Finset.mem_range.mp ht
        rw [partition_at A (2 ^ n) (2 ^ n) (i - 2 ^ n) t
            (by omega) (by omega),
          partition_at B (2 ^ n) (2 ^ n) t (j - 2 ^ n)
            (by omega) (by omega),
          show i - 2 ^ n + 2 ^ n = i by omega,
          show j - 2 ^ n + 2 ^ n = j by omega]
        simp [Nat.add_comm]

lemma multiply_entry (n : Nat) (A B : Matrix)
    (hA : A.m_size = 2 ^ n) (hB : B.m_size = 2 ^ n) (i j : Nat)
    (hi : i < 2 ^ n) (hj : j < 2 ^ n) :
    (A.multiply B).at i j = ∑ t ∈ Finset.range (2 ^ n), A.at i t * B.at t j := by
  unfold Matrix.multiply
  rw [hA]
  exact multiplyGo_correct n (2 ^ n) A B (Nat.lt_two_pow n) hA hB i j hi hj

lemma multiply_correct (n : Nat) (A B : Matrix)
    (hA : A.m_size = 2 ^ n) (hB : B.m_size = 2 ^ n) (i j : Nat)
    (hi : i < 2 ^ n) (hj : j < 2 ^ n) :
    (A.multiply B).at i j = matProdEntry A B i j := by
  rw [multiply_entry n A B hA hB i j hi hj]
  unfold matProdEntry
  rw [hA]

/-! ### Correctness of `strassen` -/

@[simp] lemma SP1_m_size (A B : Matrix) (k : Nat) :
    (SP1 A B k).m_size = A.m_size / 2 := by simp [SP1]

@[simp] lemma SP2_m_size (A B : Matrix) (k : Nat) :
    (SP2 A B k).m_size = A.m_size / 2 := by simp [SP2]

@[simp] lemma SP3_m_size (A B : Matrix) (k : Nat) :
    (SP3 A B k).m_size = A.m_size / 2 := by simp [SP3]

@[simp] lemma SP4_m_size (A B : Matrix) (k : Nat) :
    (SP4 A B k).m_size = A.m_size / 2 := by simp [SP4]

@[simp] lemma SP5_m_size (A B : Matrix) (k : Nat) :
    (SP5 A B k).m_size = A.m_size / 2 := by simp [SP5]

@[simp] lemma SP6_m_size (A B : Matrix) (k : Nat) :
    (SP6 A B k).m_size = A.m_size / 2 := by simp [SP6]

@[simp] lemma SP7_m_size (A B : Matrix) (k : Nat) :
    (SP7 A B k).m_size = A.m_size / 2 := by simp [SP7]

lemma strassen_succ (A B : Matrix) (h : A.m_size ≠ 1) :
    A.strassen B =
      (Matrix.mk0 A.m_size).combine
        ((((SP5 A B (A.m_size / 2)).add (SP4 A B (A.m_size / 2))).sub
            (SP2 A B (A.m_size / 2))).add (SP6 A B (A.m_size / 2)))
        ((SP1 A B (A.m_size / 2)).add (SP2 A B (A.m_size / 2)))
        ((SP3 A B (A.m_size / 2)).add (SP4 A B (A.m_size / 2)))
        ((((SP5 A B (A.m_size / 2)).add (SP1 A B (A.m_size / 2))).sub
            (SP3 A B (A.m_size / 2))).sub (SP7 A B (A.m_size / 2))) := by
  unfold Matrix.strassen SP1 SP2 SP3 SP4 SP5 SP6 SP7
  rw [if_neg h]

lemma SP1_at (n : Nat) (A B : Matrix)
    (hA : A.m_size = 2 ^ (n + 1)) (hB : B.m_size = 2 ^ (n + 1))
    (a b : Nat) (ha : a < 2 ^ n) (hb : b < 2 ^ n) :
    (SP1 A B (2 ^ n)).at a b =
      ∑ t ∈ Finset.range (2 ^ n),
        A.at a t * (B.at t (b + 2 ^ n) - B.at (2 ^ n + t) (b + 2 ^ n)) := by
  have hsplit : (2 : Nat) ^ (n + 1) = 2 ^ n + 2 ^ n := by rw [pow_succ, Nat.mul_two]
  have hk : A.m_size / 2 = 2 ^ n := by rw [hA, hsplit]; omega
  have hkB : B.m_size / 2 = 2 ^ n := by rw [hB, hsplit]; omega
  unfold SP1
  rw [multiply_entry n (A.partition 0 0)
    ((B.partition 0 (2 ^ n)).sub (B.partition (2 ^ n) (2 ^ n)))
    (by simp [hk]) (by simp [hkB]) a b ha hb]
  refine Finset.sum_congr rfl fun t ht => ?_
  have ht' : t < 2 ^ n := Finset.mem_range.mp ht
  rw [sub_at _ _ (by simp) t b (by simp; omega) (by simp; omega),
    partition_at A 0 0 a t (by omega) (by omega),
    partition_at B 0 (2 ^ n) t b (by omega) (by omega),
    partition_at B (2 ^ n) (2 ^ n) t b (by omega) (by omega)]
  simp [Nat.add_comm t (2 ^ n)]

lemma SP2_at (n : Nat) (A B : Matrix)
    (hA : A.m_size = 2 ^ (n + 1)) (hB : B.m_size = 2 ^ (n + 1))
    (a b : Nat) (ha : a < 2 ^ n) (hb : b < 2 ^ n) :
    (SP2 A B (2 ^ n)).at a b =
      ∑ t ∈ Finset.range (2 ^ n),
        (A.at a t + A.at a (2 ^ n + t)) * B.at (2 ^ n + t) (b + 2 ^ n) := by
  have hsplit : (2 : Nat) ^ (n + 1) = 2 ^ n + 2 ^ n := by rw [pow_succ, Nat.mul_two]
  have hk : A.m_size / 2 = 2 ^ n := by rw [hA, hsplit]; omega
  have hkB : B.m_size / 2 = 2 ^ n := by rw [hB, hsplit]; omega
  unfold SP2
  rw [multiply_entry n ((A.partition 0 0).add (A.partition 0 (2 ^ n)))
    (B.partition (2 ^ n) (2 ^ n))
    (by simp [hk]) (by simp [hkB]) a b ha hb]
  refine Finset.sum_congr rfl fun t ht => ?_
  have ht' : t < 2 ^ n := Finset.mem_range.mp ht
  rw [add_at _ _ (by simp) a t (by simp; omega) (by simp; omega),
    partition_at A 0 0 a t (by omega) (by omega),
    partition_at A 0 (2 ^ n) a t (by omega) (by omega),
    partition_at B (2 ^ n) (2 ^ n) t b (by omega) (by omega)]
  simp [Nat.add_comm t (2 ^ n)]

lemma SP3_at (n : Nat) (A B : Matrix)
    (hA : A.m_size = 2 ^ (n + 1)) (hB : B.m_size = 2 ^ (n + 1))
    (a b : Nat) (ha : a < 2 ^ n) (hb : b < 2 ^ n) :
    (SP3 A B (2 ^ n)).at a b =
      ∑ t ∈ Finset.range (2 ^ n),
        (A.at (a + 2 ^ n) t + A.at (a + 2 ^ n) (2 ^ n + t)) * B.at t b := by
  have hsplit : (2 : Nat) ^ (n + 1) = 2 ^ n + 2 ^ n := by rw [pow_succ, Nat.mul_two]
  have hk : A.m_size / 2 = 2 ^ n := by rw [hA, hsplit]; omega
  have hkB : B.m_size / 2 = 2 ^ n := by rw [hB, hsplit]; omega
  unfold SP3
  rw [multiply_entry n ((A.partition (2 ^ n) 0).add (A.partition (2 ^ n) (2 ^ n)))
    (B.partition 0 0)
    (by simp [hk]) (by simp [hkB]) a b ha hb]
  refine Finset.sum_congr rfl fun t ht => ?_
  have ht' : t < 2 ^ n := Finset.mem_range.mp ht
  rw [add_at _ _ (by simp) a t (by simp; omega) (by simp; omega),
    partition_at A (2 ^ n) 0 a t (by omega) (by omega),
    partition_at A (2 ^ n) (2 ^ n) a t (by omega) (by omega),
    partition_at B 0 0 t b (by omega) (by omega)]
  simp [Nat.add_comm t (2 ^ n)]

lemma SP4_at (n : Nat) (A B : Matrix)
    (hA : A.m_size = 2 ^ (n + 1)) (hB : B.m_size = 2 ^ (n + 1))
    (a b : Nat) (ha : a < 2 ^ n) (hb : b < 2 ^ n) :
    (SP4 A B (2 ^ n)).at a b =
      ∑ t ∈ Finset.range (2 ^ n),
        A.at (a + 2 ^ n) (2 ^ n + t) * (B.at (2 ^ n + t) b - B.at t b) := by
  have hsplit : (2 : Nat) ^ (n + 1) = 2 ^ n + 2 ^ n := by rw [pow_succ, Nat.mul_two]
  have hk : A.m_size / 2 = 2 ^ n := by rw [hA, hsplit]; omega
  have hkB : B.m_size / 2 = 2 ^ n := by rw [hB, hsplit]; omega
  unfold SP4
  rw [multiply_entry n (A.partition (2 ^ n) (2 ^ n))
    ((B.partition (2 ^ n) 0).sub (B.partition 0 0))
    (by simp [hk]) (by simp [hkB]) a b ha hb]
  refine Finset.sum_congr rfl fun t ht => ?_
  have ht' : t < 2 ^ n := Finset.mem_range.mp ht
  rw [sub_at _ _ (by simp) t b (by simp; omega) (by simp; omega),
    partition_at A (2 ^ n) (2 ^ n) a t (by omega) (by omega),
    partition_at B (2 ^ n) 0 t b (by omega) (by omega),
    partition_at B 0 0 t b (by omega) (by omega)]
  simp [Nat.add_comm t (2 ^ n)]

lemma SP5_at (n : Nat) (A B : Matrix)
    (hA : A.m_size = 2 ^ (n + 1)) (hB : B.m_size = 2 ^ (n + 1))
    (a b : Nat) (ha : a < 2 ^ n) (hb : b < 2 ^ n) :
    (SP5 A B (2 ^ n)).at a b =
      ∑ t ∈ Finset.range (2 ^ n),
        (A.at a t + A.at (a + 2 ^ n) (2 ^ n + t)) *
          (B.at t b + B.at (2 ^ n + t) (b + 2 ^ n)) := by
  have hsplit : (2 : Nat) ^ (n + 1) = 2 ^ n + 2 ^ n := by rw [pow_succ, Nat.mul_two]
  have hk : A.m_size / 2 = 2 ^ n := by rw [hA, hsplit]; omega
  have hkB : B.m_size / 2 = 2 ^ n := by rw [hB, hsplit]; omega
  unfold SP5
  rw [multiply_entry n ((A.partition 0 0).add (A.partition (2 ^ n) (2 ^ n)))
    ((B.partition 0 0).add (B.partition (2 ^ n) (2 ^ n)))
    (by simp [hk]) (by simp [hkB]) a b ha hb]
  refine Finset.sum_congr rfl fun t ht => ?_
  have ht' : t < 2 ^ n := Finset.mem_range.mp ht
  rw [add_at _ _ (by simp) a t (by simp; omega) (by simp; omega),
    add_at _ _ (by simp) t b (by simp; omega) (by simp; omega),
    partition_at A 0 0 a t (by omega) (by omega),
    partition_at A (2 ^ n) (2 ^ n) a t (by omega) (by omega),
    partition_at B 0 0 t b (by omega) (by omega),
    partition_at B (2 ^ n) (2 ^ n) t b (by omega) (by omega)]
  simp [Nat.add_comm t (2 ^ n)]

lemma SP6_at (n : Nat) (A B : Matrix)
    (hA : A.m_size = 2 ^ (n + 1)) (hB : B.m_size = 2 ^ (n + 1))
    (a b : Nat) (ha : a < 2 ^ n) (hb : b < 2 ^ n) :
    (SP6 A B (2 ^ n)).at a b =
      ∑ t ∈ Finset.range (2 ^ n),
        (A.at a (2 ^ n + t) - A.at (a + 2 ^ n) (2 ^ n + t)) *
          (B.at (2 ^ n + t) b + B.at (2 ^ n + t) (b + 2 ^ n)) := by
  have hsplit : (2 : Nat) ^ (n + 1) = 2 ^ n + 2 ^ n := by rw [pow_succ, Nat.mul_two]
  have hk : A.m_size / 2 = 2 ^ n := by rw [hA, hsplit]; omega
  have hkB : B.m_size / 2 = 2 ^ n := by rw [hB, hsplit]; omega
  unfold SP6
  rw [multiply_entry n ((A.partition 0 (2 ^ n)).sub (A.partition (2 ^ n) (2 ^ n)))
    ((B.partition (2 ^ n) 0).add (B.partition (2 ^ n) (2 ^ n)))
    (by simp [hk]) (by simp [hkB]) a b ha hb]
  refine Finset.sum_congr rfl fun t ht => ?_
  have ht' : t < 2 ^ n := Finset.mem_range.mp ht
  rw [sub_at _ _ (by simp) a t (by simp; omega) (by simp; omega),
    add_at _ _ (by simp) t b (by simp; omega) (by simp; omega),
    partition_at A 0 (2 ^ n) a t (by omega) (by omega),
    partition_at A (2 ^ n) (2 ^ n) a t (by omega) (by omega),
    partition_at B (2 ^ n) 0 t b (by omega) (by omega),
    partition_at B (2 ^ n) (2 ^ n) t b (by omega) (by omega)]
  simp [Nat.add_comm t (2 ^ n)]

lemma SP7_at (n : Nat) (A B : Matrix)
    (hA : A.m_size = 2 ^ (n + 1)) (hB : B.m_size = 2 ^ (n + 1))
    (a b : Nat) (ha : a < 2 ^ n) (hb : b < 2 ^ n) :
    (SP7 A B (2 ^ n)).at a b =
      ∑ t ∈ Finset.range (2 ^ n),
        (A.at a t - A.at (a + 2 ^ n) t) * (B.at t b + B.at t (b + 2 ^ n)) := by
  have hsplit : (2 : Nat) ^ (n + 1) = 2 ^ n + 2 ^ n := by rw [pow_succ, Nat.mul_two]
  have hk : A.m_size / 2 = 2 ^ n := by rw [hA, hsplit]; omega
  have hkB : B.m_size / 2 = 2 ^ n := by rw [hB, hsplit]; omega
  unfold SP7
  rw [multiply_entry n ((A.partition 0 0).sub (A.partition (2 ^ n) 0))
    ((B.partition 0 0).add (B.partition 0 (2 ^ n)))
    (by simp [hk]) (by simp [hkB]) a b ha hb]
  refine Finset.sum_congr rfl fun t ht => ?_
  have ht' : t < 2 ^ n := Finset.mem_range.mp ht
  rw [sub_at _ _ (by simp) a t (by simp; omega) (by simp; omega),
    add_at _ _ (by simp) t b (by simp; omega) (by simp; omega),
    partition_at A 0 0 a t (by omega) (by omega),
    partition_at A (2 ^ n) 0 a t (by omega) (by omega),
    partition_at B 0 0 t b (by omega) (by omega),
    partition_at B 0 (2 ^ n) t b (by omega) (by omega)]
  simp [Nat.add_comm t (2 ^ n)]

lemma strassen_entry (n : Nat) (A B : Matrix)
    (hA : A.m_size = 2 ^ n) (hB : B.m_size = 2 ^ n) (i j : Nat)
    (hi : i < 2 ^ n) (hj : j < 2 ^ n) :
    (A.strassen B).at i j = ∑ t ∈ Finset.range (2 ^ n), A.at i t * B.at t j := by
  cases n with
  | zero =>
    have h1 : A.m_size = 1 := by simpa using hA
    unfold Matrix.strassen
    rw [if_pos h1]
    exact multiply_entry 0 A B hA hB i j hi hj
  | succ n =>
    have hA1 : A.m_size ≠ 1 := by
      rw [hA]; exact Nat.ne_of_gt (Nat.one_lt_two_pow (Nat.succ_ne_zero n))
    have hsplit : (2 : Nat) ^ (n + 1) = 2 ^ n + 2 ^ n := by
      rw [pow_succ, Nat.mul_two]
    have hk : A.m_size / 2 = 2 ^ n := by rw [hA, hsplit]; omega
    rw [strassen_succ A B hA1,
      combine_at (Matrix.mk0 A.m_size) _ _ _ _ i j
        (show i < A.m_size by omega) (show j < A.m_size by omega)]
    simp only [mk0_m_size, hk]
    rw [hsplit, Finset.sum_range_add]
    by_cases hci : i < 2 ^ n <;> by_cases hcj : j < 2 ^ n
    · rw [if_pos ⟨hci, hcj⟩]
      rw [add_at _ _ (by simp) i j (by simp; omega) (by simp; omega),
        sub_at _ _ (by simp) i j (by simp; omega) (by simp; omega),
        add_at _ _ (by simp) i j (by simp; omega) (by simp; omega),
        SP5_at n A B hA hB i j hci hcj,
        SP4_at n A B hA hB i j hci hcj,
        SP2_at n A B hA hB i j hci hcj,
        SP6_at n A B hA hB i j hci hcj]
      rw [← Finset.sum_add_distrib, ← Finset.sum_sub_distrib,
        ← Finset.sum_add_distrib, ← Finset.sum_add_distrib]
      exact Finset.sum_congr rfl fun t ht => by ring
    · rw [if_neg (by omega), if_pos (by omega)]
      rw [add_at _ _ (by simp) i (j - 2 ^ n) (by simp; omega) (by simp; omega),
        SP1_at n A B hA hB i (j - 2 ^ n) hci (by omega),
        SP2_at n A B hA hB i (j - 2 ^ n) hci (by omega),
        show j - 2 ^ n + 2 ^ n = j from by omega]
      rw [← Finset.sum_add_distrib, ← Finset.sum_add_distrib]
      exact Finset.sum_congr rfl fun t ht => by ring
    · rw [if_neg (by omega), if_neg (by omega), if_pos (by omega)]
      rw [add_at _ _ (by simp) (i - 2 ^ n) j (by simp; omega) (by simp; omega),
        SP3_at n A B hA hB (i - 2 ^ n) j (by omega) hcj,
        SP4_at n A B hA hB (i - 2 ^ n) j (by omega) hcj,
        show i - 2 ^ n + 2 ^ n = i from by omega]
      rw [← Finset.sum_add_distrib, ← Finset.sum_add_distrib]
      exact Finset.sum_congr rfl fun t ht => by ring
    · rw [if_neg (by omega), if_neg (by omega), if_neg (by omega)]
      rw [sub_at _ _ (by simp) (i - 2 ^ n) (j - 2 ^ n)
          (by simp; omega) (by simp; omega),
        sub_at _ _ (by simp) (i - 2 ^ n) (j - 2 ^ n)
          (by simp; omega) (by simp; omega),
        add_at _ _ (by simp) (i - 2 ^ n) (j - 2 ^ n)
          (by simp; omega) (by simp; omega),
        SP5_at n A B hA hB (i - 2 ^ n) (j - 2 ^ n) (by omega) (by omega),
        SP1_at n A B hA hB (i - 2 ^ n) (j - 2 ^ n) (by omega) (by omega),
        SP3_at n A B hA hB (i - 2 ^ n) (j - 2 ^ n) (by omega) (by omega),
        SP7_at n A B hA hB (i - 2 ^ n) (j - 2 ^ n) (by omega) (by omega),
        show i - 2 ^ n + 2 ^ n = i from by omega,
        show j - 2 ^ n + 2 ^ n = j from by omega]
      rw [← Finset.sum_add_distrib, ← Finset.sum_sub_distrib,
        ← Finset.sum_sub_distrib, ← Finset.sum_add_distrib]
      exact Finset.sum_congr rfl fun t ht => by ring

/-! ### The instrumented definitions compute the same matrices -/

lemma multiplyCGo_fst :
    ∀ (fuel : Nat) (A B : Matrix),
      (Matrix.multiplyCGo fuel A B).1 = Matrix.multiplyGo fuel A B := by
  intro fuel
  induction fuel with
  | zero => intro A B; rfl
  | succ f ih =>
    intro A B
    simp only [Matrix.multiplyCGo, Matrix.multiplyGo]
    by_cases h : A.m_size = 1
    · rw [if_pos h, if_pos h]
    · rw [if_neg h, if_neg h]
      simp [ih]

lemma multiplyC_fst (A B : Matrix) : (A.multiplyC B).1 = A.multiply B :=
  multiplyCGo_fst A.m_size A B

lemma strassenC_fst (A B : Matrix) : (A.strassenC B).1 = A.strassen B := by
  unfold Matrix.strassenC Matrix.strassen
  by_cases h : A.m_size = 1
  · rw [if_pos h, if_pos h]
    exact multiplyC_fst A B
  · rw [if_neg h, if_neg h]
    simp [multiplyC_fst]

/-! ### The claims -/

/-- C1: For every pair of square matrices A and B of the same power-of-two
size, both `strassen(A,B)` and `multiply(A,B)` equal the mathematically
defined matrix product (the triple-nested-loop sum of products)
element-by-element; in particular for A = [[1,2],[3,4]] and
B = [[5,6],[7,8]] both return [[19,22],[43,50]], and for size 1 with
A = [[7]], B = [[6]] both return [[42]]. -/
theorem C1_multiply_and_strassen_compute_math_product :
    (∀ (n : Nat) (A B : Matrix), A.m_size = 2 ^ n → B.m_size = 2 ^ n →
      ∀ i, i < 2 ^ n → ∀ j, j < 2 ^ n →
        (A.multiply B).at i j = matProdEntry A B i j ∧
        (A.strassen B).at i j = matProdEntry A B i j) ∧
    (tA2.multiply tB2).EqM tP2 ∧ (tA2.strassen tB2).EqM tP2 ∧
    (tA1.multiply tB1).EqM tP1 ∧ (tA1.strassen tB1).EqM tP1 := by
  refine ⟨fun n A B hA hB i hi j hj =>
    ⟨multiply_correct n A B hA hB i j hi hj, ?_⟩,
    by decide, by decide, by decide, by decide⟩
  rw [strassen_entry n A B hA hB i j hi hj]
  unfold matProdEntry
  rw [hA]

theorem C1_witness :
    tA2.m_size = 2 ^ 1 ∧ tB2.m_size = 2 ^ 1 ∧
    (tA2.multiply tB2).at 0 1 = matProdEntry tA2 tB2 0 1 ∧
    (tA2.strassen tB2).at 0 1 = matProdEntry tA2 tB2 0 1 :=
  ⟨by decide, by decide,
    (C1_multiply_and_strassen_compute_math_product.1 1 tA2 tB2 (by decide)
      (by decide) 0 (by decide) 1 (by decide)).1,
    (C1_multiply_and_strassen_compute_math_product.1 1 tA2 tB2 (by decide)
      (by decide) 0 (by decide) 1 (by decide)).2⟩

/-- C2: For every power-of-two size and every pair of square matrices of
that size, `strassen(A,B)` equals `multiply(A,B)` element-by-element. -/
theorem C2_strassen_equals_multiply (n : Nat) (A B : Matrix)
    (hA : A.m_size = 2 ^ n) (hB : B.m_size = 2 ^ n) :
    (A.strassen B).EqM (A.multiply B) := by
  refine ⟨by rw [strassen_m_size, multiply_m_size], fun r hr c hc => ?_⟩
  rw [strassen_m_size, hA] at hr hc
  rw [strassen_entry n A B hA hB r c hr hc,
    multiply_entry n A B hA hB r c hr hc]

theorem C2_witness :
    tA4.m_size = 2 ^ 2 ∧ (tA4.strassen tB4).EqM (tA4.multiply tB4) :=
  ⟨by decide, C2_strassen_equals_multiply 2 tA4 tB4 (by decide) (by decide)⟩

/-- C3 (the code deviates from the claim): the source's `strassen` computes
each of the seven products `P1 .. P7` by a call to `multiply`, not by "a
recursive call to `strassen`" as the claim (and spec §4.6) states.  On
size-4 operands the source performs 7·8 = 56 base-case scalar
multiplications, whereas the algorithm the claim describes performs
7·7 = 49; the resulting matrices nevertheless agree. -/
theorem C3_strassen_subproducts_call_multiply_not_strassen :
    (tA4.strassenC tB4).2 = 56 ∧
    (strassenSpecC tA4 tB4).2 = 49 ∧
    ((tA4.strassenC tB4).1).EqM ((strassenSpecC tA4 tB4).1) := by
  decide

/-- C4: partitioning a matrix of even size into its four quadrants at the
corner offsets (0,0), (0,s/2), (s/2,0), (s/2,s/2) and combining them into a
size-s receiver reproduces the partitioned matrix element for element. -/
theorem C4_partition_combine_roundtrip (M R : Matrix)
    (he : M.m_size % 2 = 0) (hR : R.m_size = M.m_size) :
    (R.combine (M.partition 0 0) (M.partition 0 (M.m_size / 2))
      (M.partition (M.m_size / 2) 0)
      (M.partition (M.m_size / 2) (M.m_size / 2))).EqM M := by
  refine ⟨by rw [combine_m_size, hR], fun r hr c hc => ?_⟩
  rw [combine_m_size, hR] at hr hc
  rw [combine_at R _ _ _ _ r c (by omega) (by omega)]
  simp only [hR]
  by_cases h1 : r < M.m_size / 2 <;> by_cases h2 : c < M.m_size / 2
  · rw [if_pos ⟨h1, h2⟩, partition_at M 0 0 r c (by omega) (by omega)]
    simp
  · rw [if_neg (by omega), if_pos (by omega),
      partition_at M 0 (M.m_size / 2) r (c - M.m_size / 2)
        (by omega) (by omega),
      show c - M.m_size / 2 + M.m_size / 2 = c from by omega]
    simp
  · rw [if_neg (by omega), if_neg (by omega), if_pos (by omega),
      partition_at M (M.m_size / 2) 0 (r - M.m_size / 2) c
        (by omega) (by omega),
      show r - M.m_size / 2 + M.m_size / 2 = r from by omega]
    simp
  · rw [if_neg (by omega), if_neg (by omega), if_neg (by omega),
      partition_at M (M.m_size / 2) (M.m_size / 2) (r - M.m_size / 2)
        (c - M.m_size / 2) (by omega) (by omega),
      show r - M.m_size / 2 + M.m_size / 2 = r from by omega,
      show c - M.m_size / 2 + M.m_size / 2 = c from by omega]

theorem C4_witness :
    tA2.m_size % 2 = 0 ∧
    ((Matrix.mk0 2).combine (tA2.partition 0 0) (tA2.partition 0 1)
      (tA2.partition 1 0) (tA2.partition 1 1)).EqM tA2 :=
  ⟨by decide, C4_partition_combine_roundtrip tA2 (Matrix.mk0 2) rfl rfl⟩

/-- C5 counterexample: the claim says the bounds check "also rejects every
access in which r >= size or c >= size"; but on a 2×2 matrix the access
(0, 2) has c = 2 ≥ size = 2 and offset 0·2+2 = 2 < 4, so `at` succeeds and
returns the element stored at linear offset 2 (logical entry (1,0)). -/
theorem C5_counterexample :
    tA2.m_size ≤ 2 ∧ tA2.atE 0 2 = Except.ok 3 :=
  ⟨by decide, rfl⟩

/-- C5 (amended): element access (r, c) fails with OutOfRange exactly when
the linear offset r·size + c falls outside the size·size backing store, and
otherwise returns the stored element at that offset.  This rejects every
access with r ≥ size, but an access with c ≥ size whose offset still falls
inside the buffer succeeds (returning the element at the wrapped offset). -/
theorem C5_at_fails_iff_offset_out_of_range (M : Matrix) (r c : Nat) :
    (M.atE r c = Except.error MErr.outOfRange ↔
      M.m_size * M.m_size ≤ r * M.m_size + c) ∧
    (M.m_size ≤ r → M.atE r c = Except.error MErr.outOfRange) ∧
    (r * M.m_size + c < M.m_size * M.m_size →
      M.atE r c = Except.ok (M.m_data (r * M.m_size + c))) := by
  unfold Matrix.atE Matrix.get_index
  by_cases h : r * M.m_size + c < M.m_size * M.m_size
  · rw [if_pos h]
    refine ⟨by simp [Except.map]; omega, fun hr => ?_, fun _ => rfl⟩
    have hle : M.m_size * M.m_size ≤ r * M.m_size :=
      Nat.mul_le_mul_right M.m_size hr
    omega
  · rw [if_neg h]
    exact ⟨by simp [Except.map]; omega, fun _ => rfl, fun hc => absurd hc h⟩

theorem C5_witness :
    tA2.m_size ≤ 5 ∧ tA2.atE 5 0 = Except.error MErr.outOfRange :=
  ⟨by decide, (C5_at_fails_iff_offset_out_of_range tA2 5 0).2.1 (by decide)⟩

/-- C6: for matrices of equal size, `+` then `-` round-trips: both checked
operators succeed and (A + B) - B equals A element-by-element. -/
theorem C6_add_sub_mutual_inverses (A B : Matrix) (h : A.m_size = B.m_size) :
    A.addE B = Except.ok (A.add B) ∧
    (A.add B).subE B = Except.ok ((A.add B).sub B) ∧
    ((A.add B).sub B).EqM A := by
  refine ⟨by simp [Matrix.addE, h], by simp [Matrix.subE, h],
    ⟨rfl, fun r hr c hc => ?_⟩⟩
  rw [sub_at (A.add B) B (by rw [add_m_size, h]) r c hr hc,
    add_at A B h.symm r c hr hc]
  ring

theorem C6_witness :
    tA2.m_size = tB2.m_size ∧ ((tA2.add tB2).sub tB2).EqM tA2 :=
  ⟨rfl, (C6_add_sub_mutual_inverses tA2 tB2 rfl).2.2⟩

/-- C7: the checked operator surface (`operator+`, `operator-`, `operator*`)
throws InvalidArgument exactly on size mismatch: different sizes give the
InvalidArgument error and no result matrix; equal (power-of-two) sizes give
the computed result with no error. -/
theorem C7_size_mismatch_raises_invalid_argument (A B : Matrix) :
    (A.m_size ≠ B.m_size →
      A.addE B = Except.error MErr.invalidArgument ∧
      A.subE B = Except.error MErr.invalidArgument ∧
      A.mulE B = Except.error MErr.invalidArgument) ∧
    (A.m_size = B.m_size → (∃ np, A.m_size = 2 ^ np) →
      A.addE B = Except.ok (A.add B) ∧
      A.subE B = Except.ok (A.sub B) ∧
      A.mulE B = Except.ok (A.strassen B)) := by
  constructor
  · intro h
    simp [Matrix.addE, Matrix.subE, Matrix.mulE, h]
  · intro h _
    simp [Matrix.addE, Matrix.subE, Matrix.mulE, h]

theorem C7_witness :
    (tA1.m_size ≠ tB2.m_size ∧
      tA1.addE tB2 = Except.error MErr.invalidArgument) ∧
    (tA2.m_size = tB2.m_size ∧
      tA2.mulE tB2 = Except.ok (tA2.strassen tB2)) :=
  ⟨⟨by decide, ((C7_size_mismatch_raises_invalid_argument tA1 tB2).1
      (by decide)).1⟩,
    ⟨rfl, ((C7_size_mismatch_raises_invalid_argument tA2 tB2).2 rfl
      ⟨1, rfl⟩).2.2⟩⟩

/-- C8: construction fails with InvalidArgument exactly when the requested
size is not a power of two — 3, 5, 6 fail while 1, 2, 4, 8 succeed — and a
successfully constructed (empty) matrix has all size·size elements zero. -/
theorem C8_construct_rejects_non_powers_of_two :
    (∀ s : Nat, (∃ M, Matrix.construct s = Except.ok M) ↔ ∃ k, s = 2 ^ k) ∧
    (∀ s M, Matrix.construct s = Except.ok M →
      M.m_size = s ∧ ∀ idx, idx < s * s → M.m_data idx = 0) ∧
    Matrix.construct 3 = Except.error MErr.invalidArgument ∧
    Matrix.construct 5 = Except.error MErr.invalidArgument ∧
    Matrix.construct 6 = Except.error MErr.invalidArgument ∧
    Matrix.construct 1 = Except.ok (Matrix.mk0 1) ∧
    Matrix.construct 2 = Except.ok (Matrix.mk0 2) ∧
    Matrix.construct 4 = Except.ok (Matrix.mk0 4) ∧
    Matrix.construct 8 = Except.ok (Matrix.mk0 8) := by
  refine ⟨fun s => ?_, fun s M hM => ?_, rfl, rfl, rfl, rfl, rfl, rfl, rfl⟩
  · unfold Matrix.construct
    by_cases h : pow2CheckOK s
    · rw [if_pos h]
      exact ⟨fun _ => (pow2CheckOK_iff s).mp h, fun _ => ⟨_, rfl⟩⟩
    · rw [if_neg h]
      constructor
      · rintro ⟨M, hM⟩
        exact Except.noConfusion hM
      · intro hp
        exact absurd ((pow2CheckOK_iff s).mpr hp) h
  · unfold Matrix.construct at hM
    by_cases h : pow2CheckOK s
    · rw [if_pos h] at hM
      injection hM with hM'
      subst hM'
      exact ⟨rfl, fun idx _ => rfl⟩
    · rw [if_neg h] at hM
      exact Except.noConfusion hM

theorem C8_witness :
    (∃ k, (4 : Nat) = 2 ^ k) ∧ (∃ M, Matrix.construct 4 = Except.ok M) ∧
    (Matrix.mk0 4).m_size = 4 ∧ (Matrix.mk0 4).m_data 7 = 0 := by
  refine ⟨⟨2, rfl⟩, (C8_construct_rejects_non_powers_of_two.1 4).mpr ⟨2, rfl⟩,
    ?_, ?_⟩
  · exact (C8_construct_rejects_non_powers_of_two.2.1 4 (Matrix.mk0 4) rfl).1
  · exact (C8_construct_rejects_non_powers_of_two.2.1 4 (Matrix.mk0 4) rfl).2
      7 (by decide)

/-- C10: constructing a matrix with size 0 fails with InvalidArgument: the
power-of-two check rejects 0 (in the source, `fmod(log2(0), 1)` is NaN,
which compares unequal to 0, so the constructor throws). -/
theorem C10_construct_zero_fails :
    Matrix.construct 0 = Except.error MErr.invalidArgument := rfl

end StrassenCpp
